import Mathlib

/-!
Shallow embedding of the WebRTC signaling server (`src/services/webRTC.js`,
server portion). JavaScript `Map`s are modelled as association lists with
JS `Map` semantics (`set` replaces in place or appends, `delete` removes,
insertion order preserved). Mutable JS arrays that can be shared between a
room and a call (`room.participants` is stored by reference inside call
records) are modelled with an explicit heap: a room or call holds a `Nat`
reference into `ServerState.heap`, in-place `push` mutates the heap cell,
and `participants = array.filter(...)` allocates a fresh cell, exactly as
JS assignment of a new array leaves old aliases pointing at the old one.
`ws.send` calls are modelled as an append-only delivery log of
(recipient client id, message) pairs.
-/

set_option linter.unusedSectionVars false

namespace WebRTC

/-- Lookup in an association list: first entry whose key matches, like
`Map.prototype.get`. -/
def alookup {κ α : Type} [DecidableEq κ] (k : κ) : List (κ × α) → Option α
  | [] => none
  | e :: t => if e.1 = k then some e.2 else alookup k t

/-- `Map.prototype.set`: replace the entry in place if the key is present,
otherwise append at the end (JS Maps keep insertion order). -/
def mset {κ α : Type} [DecidableEq κ] (k : κ) (v : α) : List (κ × α) → List (κ × α)
  | [] => [(k, v)]
  | e :: t => if e.1 = k then (k, v) :: t else e :: mset k v t

/-- `Map.prototype.delete`: remove the (first) entry with the key. -/
def mdelete {κ α : Type} [DecidableEq κ] (k : κ) : List (κ × α) → List (κ × α)
  | [] => []
  | e :: t => if e.1 = k then t else e :: mdelete k t



/-- A registered user record, as built by `handleUserRegister` /
`handleUserLogin` (`{ id, username, avatar, status, lastSeen }`). -/
structure User where
  id : String
  username : String
  avatar : String
  status : String
  lastSeen : String
deriving DecidableEq

/-- An entry of the `clients` map (`clientId -> { ws, user }`). The ws
handle is abstracted to its one server-observable bit, `readyState ===
OPEN`. Entries are only ever created with a user attached (register/login),
so `user` is a plain field. -/
structure Client where
  wsOpen : Bool
  user : User
deriving DecidableEq

/-- A chat message (`messageData` in `handleSendMessage`). -/
structure MessageData where
  id : String
  fromId : String
  toId : Option String
  content : String
  messageType : String
  timestamp : String
  roomId : Option String
deriving DecidableEq

/-- A room record. `participantsRef` is a heap reference to the mutable
participants array (shared by reference with calls created via
`handleInitiateCall` on this room). -/
structure Room where
  id : String
  name : String
  participantsRef : Nat
  messages : List MessageData
  createdAt : String
deriving DecidableEq

/-- A call record (`callData` in `handleInitiateCall`). `participantsRef`
is a heap reference: for a room call it is the very same reference as the
room's participants array. -/
structure Call where
  id : String
  initiator : String
  participantsRef : Nat
  callType : String
  status : String
  startTime : String
  roomId : Option String
  answeredBy : Option String
  answerTime : Option String
  rejectedBy : Option String
  endedBy : Option String
  endTime : Option String
deriving DecidableEq

/-- A room as serialized into a `ROOM_JOINED` payload: the participants
array and message list are copied out at send time (JSON.stringify). -/
structure RoomView where
  id : String
  name : String
  participants : List String
  messages : List MessageData
  createdAt : String
deriving DecidableEq

/-- A call as serialized into `INCOMING_CALL` / `CALL_*` payloads:
the participants array is copied out at send time. -/
structure CallView where
  id : String
  initiator : String
  participants : List String
  callType : String
  status : String
  startTime : String
  roomId : Option String
  answeredBy : Option String
  answerTime : Option String
  rejectedBy : Option String
  endedBy : Option String
  endTime : Option String
deriving DecidableEq

/-- Server-to-client events sent over a websocket, with the payload fields
the server fills in. -/
inductive OutMsg where
  | connected (clientId timestamp : String)
  | errorMsg (error : Option String) (message : String)
  | userRegistered (user : User)
  | userJoined (user : User)
  | userStatusUpdate (userId status : String) (lastSeen : Option String)
  | newMessage (message : MessageData)
  | messageSent (message : MessageData)
  | roomJoined (room : RoomView)
  | userJoinedRoom (userId : String) (username : Option String)
  | userLeftRoom (userId : String)
  | incomingCall (call : CallView)
  | callInitiated (call : CallView)
  | callAnswered (call : CallView)
  | callRejected (call : CallView)
  | callEnded (call : CallView)
deriving DecidableEq

/-- The whole in-memory server state: the four global Maps, the array heap
(modelling shared mutable participants arrays), the fresh-reference
counter, and the append-only delivery log of every `ws.send`. -/
structure ServerState where
  clients : List (String × Client)
  users : List (String × User)
  chatRooms : List (String × Room)
  activeCalls : List (String × Call)
  heap : List (Nat × List String)
  nextRef : Nat
  log : List (String × OutMsg)
deriving DecidableEq

/-- Dereference a participants-array heap cell (a dangling reference reads
as the empty array; references are always allocated before use). -/
def heapGet (h : List (Nat × List String)) (r : Nat) : List String :=
  (alookup r h).getD []

/-- `client && client.ws.readyState === WebSocket.OPEN` for a client id. -/
def isOpen (s : ServerState) (cid : String) : Bool :=
  match alookup cid s.clients with
  | some cl => cl.wsOpen
  | none => false

/-- A raw `ws.send` on the connection belonging to `cid` (used where the
source writes `ws.send(...)` / `client.ws.send(...)` with no readyState
check). -/
def ServerState.push (s : ServerState) (cid : String) (m : OutMsg) : ServerState :=
  { s with log := s.log ++ [(cid, m)] }

/-- `sendToUser`: deliver iff the recipient has a client entry with an open
socket; silently dropped otherwise. -/
def sendToUser (userId : String) (m : OutMsg) (s : ServerState) : ServerState :=
  if isOpen s userId then s.push userId m else s

/-- `broadcastToAll`: send to every open client except `excludeId`,
in `clients` insertion order. -/
def broadcastToAll (m : OutMsg) (excludeId : Option String) (s : ServerState) : ServerState :=
  { s with
    log := s.log ++ s.clients.filterMap (fun e =>
      if some e.1 ≠ excludeId ∧ e.2.wsOpen then some (e.1, m) else none) }

/-- `broadcastToRoom`: no-op if the room does not exist; otherwise send to
every participant except `excludeId` whose client is present and open. -/
def broadcastToRoom (roomId : String) (m : OutMsg) (excludeId : Option String)
    (s : ServerState) : ServerState :=
  match alookup roomId s.chatRooms with
  | none => s
  | some room =>
    { s with
      log := s.log ++ (heapGet s.heap room.participantsRef).filterMap (fun pid =>
        if some pid ≠ excludeId ∧ isOpen s pid then some (pid, m) else none) }

/-- `call.participants.forEach(pid => sendToUser(pid, m))`. -/
def notifyParticipants (participants : List String) (m : OutMsg)
    (s : ServerState) : ServerState :=
  { s with
    log := s.log ++ participants.filterMap (fun pid =>
      if isOpen s pid then some (pid, m) else none) }

/-- Serialize a call for a notification payload: the shared participants
array is read out of the heap at send time. -/
def callView (s : ServerState) (c : Call) : CallView :=
  { id := c.id, initiator := c.initiator,
    participants := heapGet s.heap c.participantsRef,
    callType := c.callType, status := c.status, startTime := c.startTime,
    roomId := c.roomId, answeredBy := c.answeredBy, answerTime := c.answerTime,
    rejectedBy := c.rejectedBy, endedBy := c.endedBy, endTime := c.endTime }

/-- The `connection` event: the server only sends a `CONNECTED` greeting;
no registry entry is created until the client registers or logs in. -/
def handleConnection (clientId now : String) (s : ServerState) : ServerState :=
  s.push clientId (.connected clientId now)

/-- `handleUserRegister`. `wsOpen` is the open-state of the registering
socket that gets stored into the `clients` entry. Timestamps
(`new Date().toISOString()`) are threaded in as the opaque string `now`;
`generateId()` results are likewise threaded in by the caller. -/
def handleUserRegister (clientId username : String) (avatar : Option String)
    (wsOpen : Bool) (now : String) (s : ServerState) : ServerState :=
  if (s.users.map Prod.snd).any (fun u => u.username = username) then
    s.push clientId (.errorMsg (some "USERNAME_EXISTS")
      ("Username \"" ++ username ++ "\" already exists. Please choose a different username."))
  else
    let user : User :=
      { id := clientId, username := username,
        avatar := avatar.getD ("https://api.dicebear.com/7.x/avataaars/svg?seed=" ++ username),
        status := "online", lastSeen := now }
    let s₁ := { s with
      users := mset clientId user s.users,
      clients := mset clientId { wsOpen := wsOpen, user := user } s.clients }
    let s₂ := s₁.push clientId (.userRegistered user)
    broadcastToAll (.userJoined user) (some clientId) s₂

/-- The `messageData` value a `SEND_MESSAGE` handler constructs. -/
def mkMessageData (clientId : String) (toId : Option String) (content messageType : String)
    (roomId : Option String) (msgId now : String) : MessageData :=
  { id := msgId, fromId := clientId, toId := toId, content := content,
    messageType := messageType, timestamp := now, roomId := roomId }

/-- `handleSendMessage`: room branch appends to the room's message array
and broadcasts with NO exclusion; direct branch best-effort-delivers to
`to` and unconditionally confirms to the sender. -/
def handleSendMessage (clientId : String) (toId : Option String)
    (content messageType : String) (roomId : Option String)
    (msgId now : String) (s : ServerState) : ServerState :=
  match alookup clientId s.clients with
  | none => s
  | some _client =>
    let messageData := mkMessageData clientId toId content messageType roomId msgId now
    match roomId with
    | some rid =>
      match alookup rid s.chatRooms with
      | some room =>
        let s₁ := { s with
          chatRooms := mset rid { room with messages := room.messages ++ [messageData] } s.chatRooms }
        broadcastToRoom rid (.newMessage messageData) none s₁
      | none => s
    | none =>
      match toId with
      | some t =>
        let s₁ := sendToUser t (.newMessage messageData) s
        s₁.push clientId (.messageSent messageData)
      | none => s

/-- `room.messages.slice(-50)`. -/
def sliceLast50 (l : List MessageData) : List MessageData :=
  l.drop (l.length - 50)

/-- `handleJoinRoom`: creates the room lazily (fresh empty participants
array), pushes the joiner into the shared array if absent, replies
`ROOM_JOINED` with the last 50 messages (no open-check on the direct
`client.ws.send`), then notifies the other participants. -/
def handleJoinRoom (clientId roomId : String) (roomName : Option String)
    (now : String) (s : ServerState) : ServerState :=
  let s₀ :=
    match alookup roomId s.chatRooms with
    | some _ => s
    | none =>
      { s with
        heap := (s.nextRef, ([] : List String)) :: s.heap,
        nextRef := s.nextRef + 1,
        chatRooms := mset roomId
          { id := roomId, name := roomName.getD ("Room " ++ roomId),
            participantsRef := s.nextRef, messages := [], createdAt := now }
          s.chatRooms }
  match alookup roomId s₀.chatRooms with
  | none => s₀
  | some room =>
    let s₁ :=
      if clientId ∈ heapGet s₀.heap room.participantsRef then s₀
      else { s₀ with
        heap := mset room.participantsRef
          (heapGet s₀.heap room.participantsRef ++ [clientId]) s₀.heap }
    let s₂ :=
      match alookup clientId s₁.clients with
      | some _ =>
        s₁.push clientId (.roomJoined
          { id := room.id, name := room.name,
            participants := heapGet s₁.heap room.participantsRef,
            messages := sliceLast50 room.messages,
            createdAt := room.createdAt })
      | none => s₁
    broadcastToRoom roomId
      (.userJoinedRoom clientId ((alookup clientId s₂.clients).map (fun cl => cl.user.username)))
      (some clientId) s₂

/-- `handleLeaveRoom`: `room.participants = room.participants.filter(...)`
allocates a fresh array for the room (old aliases keep the old array),
then notifies the remaining participants. -/
def handleLeaveRoom (clientId roomId : String) (s : ServerState) : ServerState :=
  match alookup roomId s.chatRooms with
  | none => s
  | some room =>
    let s₁ := { s with
      heap := (s.nextRef,
        (heapGet s.heap room.participantsRef).filter (fun pid => pid ≠ clientId)) :: s.heap,
      nextRef := s.nextRef + 1,
      chatRooms := mset roomId { room with participantsRef := s.nextRef } s.chatRooms }
    broadcastToRoom roomId (.userLeftRoom clientId) (some clientId) s₁

/-- `handleInitiateCall`: a room call stores the room's participants array
BY REFERENCE (`chatRooms.get(roomId)?.participants`); a direct call (or a
call on an absent room) allocates a fresh array. An absent direct target
contributes nothing to the fresh array (the source stores `undefined`). -/
def handleInitiateCall (clientId : String) (toId : Option String) (callType : String)
    (roomId : Option String) (callId now : String) (s : ServerState) : ServerState :=
  let alloc := fun (arr : List String) (s' : ServerState) =>
    (s'.nextRef, { s' with heap := (s'.nextRef, arr) :: s'.heap, nextRef := s'.nextRef + 1 })
  let refAndState :=
    match roomId with
    | some rid =>
      match alookup rid s.chatRooms with
      | some room => (room.participantsRef, s)
      | none => alloc [] s
    | none => alloc ([clientId] ++ toId.toList) s
  let pref := refAndState.1
  let s₁ := refAndState.2
  let callData : Call :=
    { id := callId, initiator := clientId, participantsRef := pref,
      callType := callType, status := "ringing", startTime := now, roomId := roomId,
      answeredBy := none, answerTime := none, rejectedBy := none,
      endedBy := none, endTime := none }
  let s₂ := { s₁ with activeCalls := mset callId callData s₁.activeCalls }
  let s₃ :=
    match roomId with
    | some rid => broadcastToRoom rid (.incomingCall (callView s₂ callData)) (some clientId) s₂
    | none =>
      match toId with
      | some t => sendToUser t (.incomingCall (callView s₂ callData)) s₂
      | none => s₂
  match alookup clientId s₃.clients with
  | some _ => s₃.push clientId (.callInitiated (callView s₃ callData))
  | none => s₃

/-- `handleAnswerCall`: the only check is presence in `activeCalls`; any
present call (whatever its status) is switched to `active` and all its
participants notified. -/
def handleAnswerCall (clientId callId now : String) (s : ServerState) : ServerState :=
  match alookup callId s.activeCalls with
  | none => s
  | some call =>
    let call' := { call with
      status := "active", answeredBy := some clientId, answerTime := some now }
    let s₁ := { s with activeCalls := mset callId call' s.activeCalls }
    notifyParticipants (heapGet s₁.heap call'.participantsRef)
      (.callAnswered (callView s₁ call')) s₁

/-- `handleRejectCall`: presence in `activeCalls` is the only check; the
call is marked rejected, all participants notified, then the call deleted. -/
def handleRejectCall (clientId callId now : String) (s : ServerState) : ServerState :=
  match alookup callId s.activeCalls with
  | none => s
  | some call =>
    let call' := { call with
      status := "rejected", rejectedBy := some clientId, endTime := some now }
    let s₁ := { s with activeCalls := mset callId call' s.activeCalls }
    let s₂ := notifyParticipants (heapGet s₁.heap call'.participantsRef)
      (.callRejected (callView s₁ call')) s₁
    { s₂ with activeCalls := mdelete callId s₂.activeCalls }

/-- `handleEndCall`: presence in `activeCalls` is the only check; the call
is marked ended, all participants notified, then the call deleted. -/
def handleEndCall (clientId callId now : String) (s : ServerState) : ServerState :=
  match alookup callId s.activeCalls with
  | none => s
  | some call =>
    let call' := { call with
      status := "ended", endTime := some now, endedBy := some clientId }
    let s₁ := { s with activeCalls := mset callId call' s.activeCalls }
    let s₂ := notifyParticipants (heapGet s₁.heap call'.participantsRef)
      (.callEnded (callView s₁ call')) s₁
    { s₂ with activeCalls := mdelete callId s₂.activeCalls }

/-- One iteration of the disconnect cascade's `for ... of activeCalls`
loop: end the call if the disconnecting client is in its participants
array. -/
def endCallsStep (clientId now : String) (s : ServerState) (e : String × Call) : ServerState :=
  if clientId ∈ heapGet s.heap e.2.participantsRef
  then handleEndCall clientId e.1 now s
  else s

/-- One iteration of the disconnect cascade's `for ... of chatRooms` loop:
if the client is in the room's array, replace the room's array with a
filtered fresh one and notify the remaining participants. -/
def removeFromRoomsStep (clientId : String) (s : ServerState) (e : String × Room) : ServerState :=
  if clientId ∈ heapGet s.heap e.2.participantsRef then
    let s₁ := { s with
      heap := (s.nextRef,
        (heapGet s.heap e.2.participantsRef).filter (fun pid => pid ≠ clientId)) :: s.heap,
      nextRef := s.nextRef + 1,
      chatRooms := mset e.1 { e.2 with participantsRef := s.nextRef } s.chatRooms }
    broadcastToRoom e.1 (.userLeftRoom clientId) (some clientId) s₁
  else s

/-- The disconnecting client's shared user object set offline
(`client.user.status = "offline"; client.user.lastSeen = ...`). -/
def offlineUser (cl : Client) (now : String) : User :=
  { cl.user with status := "offline", lastSeen := now }

/-- First stage of the disconnect cascade for a registered client: the
socket is closed by now (`wsOpen := false`), the shared user object is set
offline (the source mutates the one object referenced from both maps;
modelled as updating the entry under the same key in both), and the
presence change is broadcast to everyone else. -/
def disconnectPresence (clientId now : String) (cl : Client) (s : ServerState) : ServerState :=
  broadcastToAll (.userStatusUpdate clientId "offline" (some now)) (some clientId)
    { s with
      clients := mset clientId { wsOpen := false, user := offlineUser cl now } s.clients,
      users :=
        match alookup clientId s.users with
        | some _ => mset clientId (offlineUser cl now) s.users
        | none => s.users }

/-- `handleDisconnect` (the `ws.on("close")` cascade). A connection that
never registered has no `clients` entry, so the whole cascade is skipped
and only the (absent) `clients` entry is deleted. For a registered client:
presence stage, then every call containing the client is ended, then the
client is filtered out of every room, and finally the `clients` entry is
deleted. -/
def handleDisconnect (clientId now : String) (s : ServerState) : ServerState :=
  match alookup clientId s.clients with
  | none => { s with clients := mdelete clientId s.clients }
  | some cl =>
    let s₂ := disconnectPresence clientId now cl s
    let s₃ := s₂.activeCalls.foldl (endCallsStep clientId now) s₂
    let s₄ := s₃.chatRooms.foldl (removeFromRoomsStep clientId) s₃
    { s₄ with clients := mdelete clientId s₄.clients }

/-- The participants array of a room, if the room exists. -/
def roomParticipants (s : ServerState) (roomId : String) : Option (List String) :=
  (alookup roomId s.chatRooms).map (fun r => heapGet s.heap r.participantsRef)

/-- The participants array of an active call, if it exists. -/
def callParticipants (s : ServerState) (callId : String) : Option (List String) :=
  (alookup callId s.activeCalls).map (fun c => heapGet s.heap c.participantsRef)

/-- The status of an active call, if it exists. -/
def callStatus (s : ServerState) (callId : String) : Option String :=
  (alookup callId s.activeCalls).map (fun c => c.status)

/-- The stored message history of a room, if the room exists. -/
def roomMessages (s : ServerState) (roomId : String) : Option (List MessageData) :=
  (alookup roomId s.chatRooms).map (fun r => r.messages)

/-- The usernames of all currently-registered identities, in directory
order. -/
def usernames (s : ServerState) : List String :=
  s.users.map (fun e => e.2.username)

/-- Well-formedness of a server state: heap references are unambiguous and
fresh references never collide with stored ones, and the JS Maps have the
distinct keys real Maps have. Every state the server actually reaches
satisfies this. -/
def ServerState.WF (s : ServerState) : Prop :=
  (s.heap.map Prod.fst).Nodup
  ∧ (∀ k ∈ s.heap.map Prod.fst, k < s.nextRef)
  ∧ (∀ e ∈ s.chatRooms, e.2.participantsRef < s.nextRef)
  ∧ (∀ e ∈ s.activeCalls, e.2.participantsRef < s.nextRef)
  ∧ (s.chatRooms.map Prod.fst).Nodup
  ∧ (s.activeCalls.map Prod.fst).Nodup
  ∧ (s.clients.map Prod.fst).Nodup
  ∧ (s.users.map Prod.fst).Nodup

instance (s : ServerState) : Decidable s.WF := by
  unfold ServerState.WF
  infer_instance

/-- The state of a freshly started server: every Map empty. -/
def initialState : ServerState :=
  { clients := [], users := [], chatRooms := [], activeCalls := [],
    heap := [], nextRef := 0, log := [] }

/-! Concrete executions used by the counterexamples and witnesses. -/

/-- Three clients registered: `ca`/alice, `cb`/bob, `cc`/carol. -/
def sReg : ServerState :=
  handleUserRegister "cc" "carol" none true "t0"
    (handleUserRegister "cb" "bob" none true "t0"
      (handleUserRegister "ca" "alice" none true "t0" initialState))

/-- ... then `ca` and `cb` have joined room `r1`. -/
def sRooms : ServerState :=
  handleJoinRoom "cb" "r1" none "t1" (handleJoinRoom "ca" "r1" none "t1" sReg)

/-- ... and `cc` has joined `r1` as well. -/
def sRoom3 : ServerState :=
  handleJoinRoom "cc" "r1" none "t1" sRooms

/-- From `sRooms`: `ca` starts a conference call `k1` on room `r1`
(so the call shares the room's participants array). -/
def sRoomCall : ServerState :=
  handleInitiateCall "ca" none "video" (some "r1") "k1" "t2" sRooms

/-- From `sReg`: `ca` starts a direct audio call `k2` to `cb`. -/
def sDirect : ServerState :=
  handleInitiateCall "ca" (some "cb") "audio" none "k2" "t2" sReg

/-- ... which `cb` has answered (status `active`). -/
def sAnswered : ServerState :=
  handleAnswerCall "cb" "k2" "t3" sDirect

/-- From `sRooms`: 51 room messages sent by `ca` into `r1`. -/
def s51 : ServerState :=
  (List.range 51).foldl
    (fun st _ => handleSendMessage "ca" none "x" "text" (some "r1") "m" "t" st) sRooms

/-- An unregistered connection `zz` joins room `r9` (the join handler never
checks registration), then its socket closes. -/
def sGhostGone : ServerState :=
  handleDisconnect "zz" "t2" (handleJoinRoom "zz" "r9" none "t1" sReg)

section ALookupLemmas

variable {κ α : Type} [DecidableEq κ]

theorem alookup_mset_self (k : κ) (v : α) (l : List (κ × α)) :
    alookup k (mset k v l) = some v := by
  induction l with
  | nil => simp [mset, alookup]
  | cons e t ih =>
    by_cases h : e.1 = k
    · rw [mset, if_pos h, alookup, if_pos rfl]
    · rw [mset, if_neg h, alookup, if_neg h]
      exact ih

theorem alookup_mset_ne {k' k : κ} (v : α) (l : List (κ × α)) (h : k' ≠ k) :
    alookup k (mset k' v l) = alookup k l := by
  induction l with
  | nil => simp [mset, alookup, h]
  | cons e t ih =>
    by_cases he : e.1 = k'
    · have hek : e.1 ≠ k := by rw [he]; exact h
      rw [mset, if_pos he, alookup, if_neg h, alookup, if_neg hek]
    · by_cases hk : e.1 = k
      · rw [mset, if_neg he, alookup, if_pos hk, alookup, if_pos hk]
      · rw [mset, if_neg he, alookup, if_neg hk, alookup, if_neg hk]
        exact ih

theorem alookup_mdelete_ne {k' k : κ} (l : List (κ × α)) (h : k' ≠ k) :
    alookup k (mdelete k' l) = alookup k l := by
  induction l with
  | nil => rw [mdelete]
  | cons e t ih =>
    by_cases he : e.1 = k'
    · have hek : e.1 ≠ k := by rw [he]; exact h
      rw [mdelete, if_pos he, alookup, if_neg hek]
    · by_cases hk : e.1 = k
      · rw [mdelete, if_neg he, alookup, if_pos hk, alookup, if_pos hk]
      · rw [mdelete, if_neg he, alookup, if_neg hk, alookup, if_neg hk]
        exact ih

theorem alookup_eq_none_of_not_mem {k : κ} {l : List (κ × α)}
    (h : k ∉ l.map Prod.fst) : alookup k l = none := by
  induction l with
  | nil => rfl
  | cons e t ih =>
    simp only [List.map_cons, List.mem_cons] at h
    push_neg at h
    have he : e.1 ≠ k := fun hc => h.1 hc.symm
    rw [alookup, if_neg he]
    exact ih h.2

theorem alookup_mdelete_self {k : κ} {l : List (κ × α)}
    (h : (l.map Prod.fst).Nodup) : alookup k (mdelete k l) = none := by
  induction l with
  | nil => rfl
  | cons e t ih =>
    simp only [List.map_cons, List.nodup_cons] at h
    by_cases he : e.1 = k
    · rw [mdelete, if_pos he]
      exact alookup_eq_none_of_not_mem (he ▸ h.1)
    · rw [mdelete, if_neg he, alookup, if_neg he]
      exact ih h.2

theorem mem_of_alookup_eq_some {k : κ} {v : α} {l : List (κ × α)}
    (h : alookup k l = some v) : (k, v) ∈ l := by
  induction l with
  | nil => simp [alookup] at h
  | cons e t ih =>
    rcases e with ⟨a, b⟩
    rw [alookup] at h
    by_cases he : a = k
    · simp only [he, if_true, Option.some.injEq] at h
      rw [← he, ← h]
      exact List.mem_cons_self _ _
    · simp only [he, if_false] at h
      exact List.mem_cons_of_mem _ (ih h)

theorem alookup_eq_some_of_mem {l : List (κ × α)} {e : κ × α}
    (hnd : (l.map Prod.fst).Nodup) (h : e ∈ l) : alookup e.1 l = some e.2 := by
  induction l with
  | nil => simp at h
  | cons e' t ih =>
    simp only [List.map_cons, List.nodup_cons] at hnd
    rcases List.mem_cons.mp h with h | h
    · rw [h, alookup, if_pos rfl]
    · have hne : e'.1 ≠ e.1 := by
        intro hx
        exact hnd.1 (hx ▸ List.mem_map_of_mem Prod.fst h)
      rw [alookup, if_neg hne]
      exact ih hnd.2 h

theorem mem_map_fst_of_alookup {k : κ} {v : α} {l : List (κ × α)}
    (h : alookup k l = some v) : k ∈ l.map Prod.fst :=
  List.mem_map_of_mem Prod.fst (mem_of_alookup_eq_some h)

theorem map_fst_mset_of_mem {k : κ} (v : α) {l : List (κ × α)}
    (h : k ∈ l.map Prod.fst) : (mset k v l).map Prod.fst = l.map Prod.fst := by
  induction l with
  | nil => simp at h
  | cons e t ih =>
    by_cases he : e.1 = k
    · rw [mset, if_pos he, List.map_cons, List.map_cons, he]
    · simp only [List.map_cons, List.mem_cons] at h
      rcases h with h | h
      · exact absurd h.symm he
      · rw [mset, if_neg he, List.map_cons, List.map_cons, ih h]

theorem map_fst_mdelete_sublist (k : κ) (l : List (κ × α)) :
    ((mdelete k l).map Prod.fst).Sublist (l.map Prod.fst) := by
  induction l with
  | nil => simp [mdelete]
  | cons e t ih =>
    by_cases he : e.1 = k
    · rw [mdelete, if_pos he, List.map_cons]
      exact List.sublist_cons_self _ _
    · rw [mdelete, if_neg he, List.map_cons, List.map_cons]
      exact ih.cons₂ e.1

theorem exists_entry_of_mem_map_fst {k : κ} {l : List (κ × α)}
    (h : k ∈ l.map Prod.fst) : ∃ v, (k, v) ∈ l := by
  rcases List.mem_map.mp h with ⟨e, he, hk⟩
  exact ⟨e.2, by rw [← hk]; exact he⟩

end ALookupLemmas

/-! Frame lemmas: the delivery helpers only append to the log. -/

@[simp] theorem push_clients (s : ServerState) (c m) : (s.push c m).clients = s.clients := rfl
@[simp] theorem push_users (s : ServerState) (c m) : (s.push c m).users = s.users := rfl
@[simp] theorem push_chatRooms (s : ServerState) (c m) : (s.push c m).chatRooms = s.chatRooms := rfl
@[simp] theorem push_activeCalls (s : ServerState) (c m) : (s.push c m).activeCalls = s.activeCalls := rfl
@[simp] theorem push_heap (s : ServerState) (c m) : (s.push c m).heap = s.heap := rfl
@[simp] theorem push_nextRef (s : ServerState) (c m) : (s.push c m).nextRef = s.nextRef := rfl

theorem sendToUser_frame (u m s) :
    (sendToUser u m s).clients = s.clients ∧ (sendToUser u m s).users = s.users
    ∧ (sendToUser u m s).chatRooms = s.chatRooms
    ∧ (sendToUser u m s).activeCalls = s.activeCalls
    ∧ (sendToUser u m s).heap = s.heap ∧ (sendToUser u m s).nextRef = s.nextRef := by
  unfold sendToUser
  split <;> exact ⟨rfl, rfl, rfl, rfl, rfl, rfl⟩

@[simp] theorem sendToUser_clients (u m s) : (sendToUser u m s).clients = s.clients :=
  (sendToUser_frame u m s).1
@[simp] theorem sendToUser_chatRooms (u m s) : (sendToUser u m s).chatRooms = s.chatRooms :=
  (sendToUser_frame u m s).2.2.1
@[simp] theorem sendToUser_activeCalls (u m s) : (sendToUser u m s).activeCalls = s.activeCalls :=
  (sendToUser_frame u m s).2.2.2.1
@[simp] theorem sendToUser_heap (u m s) : (sendToUser u m s).heap = s.heap :=
  (sendToUser_frame u m s).2.2.2.2.1
@[simp] theorem sendToUser_nextRef (u m s) : (sendToUser u m s).nextRef = s.nextRef :=
  (sendToUser_frame u m s).2.2.2.2.2

@[simp] theorem broadcastToAll_clients (m ex s) : (broadcastToAll m ex s).clients = s.clients := rfl
@[simp] theorem broadcastToAll_users (m ex s) : (broadcastToAll m ex s).users = s.users := rfl
@[simp] theorem broadcastToAll_chatRooms (m ex s) :
    (broadcastToAll m ex s).chatRooms = s.chatRooms := rfl
@[simp] theorem broadcastToAll_activeCalls (m ex s) :
    (broadcastToAll m ex s).activeCalls = s.activeCalls := rfl
@[simp] theorem broadcastToAll_heap (m ex s) : (broadcastToAll m ex s).heap = s.heap := rfl
@[simp] theorem broadcastToAll_nextRef (m ex s) :
    (broadcastToAll m ex s).nextRef = s.nextRef := rfl

theorem broadcastToRoom_frame (rid m ex s) :
    (broadcastToRoom rid m ex s).clients = s.clients
    ∧ (broadcastToRoom rid m ex s).users = s.users
    ∧ (broadcastToRoom rid m ex s).chatRooms = s.chatRooms
    ∧ (broadcastToRoom rid m ex s).activeCalls = s.activeCalls
    ∧ (broadcastToRoom rid m ex s).heap = s.heap
    ∧ (broadcastToRoom rid m ex s).nextRef = s.nextRef := by
  unfold broadcastToRoom
  split <;> exact ⟨rfl, rfl, rfl, rfl, rfl, rfl⟩

@[simp] theorem broadcastToRoom_clients (rid m ex s) :
    (broadcastToRoom rid m ex s).clients = s.clients := (broadcastToRoom_frame rid m ex s).1
@[simp] theorem broadcastToRoom_users (rid m ex s) :
    (broadcastToRoom rid m ex s).users = s.users := (broadcastToRoom_frame rid m ex s).2.1
@[simp] theorem broadcastToRoom_chatRooms (rid m ex s) :
    (broadcastToRoom rid m ex s).chatRooms = s.chatRooms := (broadcastToRoom_frame rid m ex s).2.2.1
@[simp] theorem broadcastToRoom_activeCalls (rid m ex s) :
    (broadcastToRoom rid m ex s).activeCalls = s.activeCalls :=
  (broadcastToRoom_frame rid m ex s).2.2.2.1
@[simp] theorem broadcastToRoom_heap (rid m ex s) :
    (broadcastToRoom rid m ex s).heap = s.heap := (broadcastToRoom_frame rid m ex s).2.2.2.2.1
@[simp] theorem broadcastToRoom_nextRef (rid m ex s) :
    (broadcastToRoom rid m ex s).nextRef = s.nextRef := (broadcastToRoom_frame rid m ex s).2.2.2.2.2

@[simp] theorem notifyParticipants_clients (ps m s) :
    (notifyParticipants ps m s).clients = s.clients := rfl
@[simp] theorem notifyParticipants_users (ps m s) :
    (notifyParticipants ps m s).users = s.users := rfl
@[simp] theorem notifyParticipants_chatRooms (ps m s) :
    (notifyParticipants ps m s).chatRooms = s.chatRooms := rfl
@[simp] theorem notifyParticipants_activeCalls (ps m s) :
    (notifyParticipants ps m s).activeCalls = s.activeCalls := rfl
@[simp] theorem notifyParticipants_heap (ps m s) :
    (notifyParticipants ps m s).heap = s.heap := rfl
@[simp] theorem notifyParticipants_nextRef (ps m s) :
    (notifyParticipants ps m s).nextRef = s.nextRef := rfl

@[simp] theorem heapGet_mset_self (r : Nat) (a : List String) (h) :
    heapGet (mset r a h) r = a := by
  unfold heapGet
  rw [alookup_mset_self]
  rfl

theorem heapGet_mset_ne {r' r : Nat} (a : List String) (h) (hne : r' ≠ r) :
    heapGet (mset r' a h) r = heapGet h r := by
  unfold heapGet
  rw [alookup_mset_ne _ _ hne]

theorem heapGet_cons_ne {n r : Nat} (a : List String) (h) (hne : n ≠ r) :
    heapGet ((n, a) :: h) r = heapGet h r := by
  simp [heapGet, alookup, hne]

/-- `handleJoinRoom` on an existing room and a genuinely new joiner:
it pushes the joiner into the room's (shared, in-place mutated)
participants array and touches no other registry. -/
theorem handleJoinRoom_existing (s : ServerState) (x rid : String)
    (rname : Option String) (now : String) (room : Room)
    (hroom : alookup rid s.chatRooms = some room)
    (hnew : x ∉ heapGet s.heap room.participantsRef) :
    (handleJoinRoom x rid rname now s).activeCalls = s.activeCalls
    ∧ (handleJoinRoom x rid rname now s).heap
        = mset room.participantsRef (heapGet s.heap room.participantsRef ++ [x]) s.heap
    ∧ (handleJoinRoom x rid rname now s).chatRooms = s.chatRooms := by
  unfold handleJoinRoom
  simp only [hroom, if_neg hnew]
  refine ⟨?_, ?_, ?_⟩
  · simp only [broadcastToRoom_activeCalls]
    split <;> rfl
  · simp only [broadcastToRoom_heap]
    split <;> rfl
  · simp only [broadcastToRoom_chatRooms]
    split <;> rfl

/-- C1: the claim is false on the code. `handleInitiateCall` stores
`chatRooms.get(roomId)?.participants` — the room's live array, by
reference, not a copy. With `ca`,`cb` in room `r1` and call `k1` created
on `r1`, a later `JOIN_ROOM` by the new identity `cc` mutates the shared
array, and the call's `participantIds` becomes `[ca, cb, cc]`. -/
theorem c1_counterexample :
    callParticipants sRoomCall "k1" = some ["ca", "cb"]
    ∧ callParticipants (handleJoinRoom "cc" "r1" none "t3" sRoomCall) "k1"
        = some ["ca", "cb", "cc"] := by
  exact ⟨rfl, rfl⟩

/-- C1 (amended): a room call's `participantIds` aliases the room's live
participants array, so a later `join(roomId)` by a new identity appends
the joiner to the call's `participantIds` as well. -/
theorem c1_live_reference (s : ServerState) (rid cid x : String)
    (rname : Option String) (now : String) (room : Room) (call : Call)
    (hroom : alookup rid s.chatRooms = some room)
    (hcall : alookup cid s.activeCalls = some call)
    (hshare : call.participantsRef = room.participantsRef)
    (hnew : x ∉ heapGet s.heap room.participantsRef) :
    callParticipants (handleJoinRoom x rid rname now s) cid
      = some (heapGet s.heap room.participantsRef ++ [x]) := by
  obtain ⟨hac, hh, -⟩ := handleJoinRoom_existing s x rid rname now room hroom hnew
  unfold callParticipants
  rw [hac, hcall, Option.map_some', hh, hshare, heapGet_mset_self]

/-- C1 witness: instantiates the amended theorem on the concrete
`sRoomCall` execution. -/
theorem c1_live_reference_witness :
    callParticipants (handleJoinRoom "cc" "r1" none "t9" sRoomCall) "k1"
      = some (heapGet sRoomCall.heap 0 ++ ["cc"]) :=
  c1_live_reference sRoomCall "r1" "k1" "cc" none "t9"
    { id := "r1", name := "Room r1", participantsRef := 0, messages := [], createdAt := "t1" }
    { id := "k1", initiator := "ca", participantsRef := 0, callType := "video",
      status := "ringing", startTime := "t2", roomId := some "r1",
      answeredBy := none, answerTime := none, rejectedBy := none,
      endedBy := none, endTime := none }
    (by decide) (by decide) rfl (by decide)

/-- C2: the claim is false on the code. `handleAnswerCall` and
`handleRejectCall` never look at `call.status`, only at presence in
`activeCalls`. In `sAnswered` call `k2` has status `active`, yet a
`REJECT_CALL` is still accepted: it removes the call and emits two
`CALL_REJECTED` notifications (an `active → rejected` transition, which
the claim rules out). -/
theorem c2_counterexample :
    callStatus sAnswered "k2" = some "active"
    ∧ alookup "k2" (handleRejectCall "cb" "k2" "t4" sAnswered).activeCalls = none
    ∧ (handleRejectCall "cb" "k2" "t4" sAnswered).log.drop sAnswered.log.length
        = [("ca", OutMsg.callRejected
              { id := "k2", initiator := "ca", participants := ["ca", "cb"],
                callType := "audio", status := "rejected", startTime := "t2",
                roomId := none, answeredBy := some "cb", answerTime := some "t3",
                rejectedBy := some "cb", endedBy := none, endTime := some "t4" }),
           ("cb", OutMsg.callRejected
              { id := "k2", initiator := "ca", participants := ["ca", "cb"],
                callType := "audio", status := "rejected", startTime := "t2",
                roomId := none, answeredBy := some "cb", answerTime := some "t3",
                rejectedBy := some "cb", endedBy := none, endTime := some "t4" })] :=
  ⟨rfl, rfl, rfl⟩

/-- C2 (amended): answer/reject/end are gated ONLY by presence of the call
id in the active set, regardless of status (so answer and reject are also
accepted on an `active` call). A transition attempt on an absent call id —
in particular on any call already rejected or ended, since those are
removed — leaves the state entirely unchanged (and sends nothing). Reject
and end always leave the call id absent. -/
theorem c2_transitions_by_presence (s : ServerState) (clientId callId now : String)
    (hnd : (s.activeCalls.map Prod.fst).Nodup) :
    (alookup callId s.activeCalls = none →
      handleAnswerCall clientId callId now s = s
      ∧ handleRejectCall clientId callId now s = s
      ∧ handleEndCall clientId callId now s = s)
    ∧ alookup callId (handleAnswerCall clientId callId now s).activeCalls
        = (alookup callId s.activeCalls).map (fun c =>
            { c with status := "active", answeredBy := some clientId,
                     answerTime := some now })
    ∧ alookup callId (handleRejectCall clientId callId now s).activeCalls = none
    ∧ alookup callId (handleEndCall clientId callId now s).activeCalls = none := by
  cases hc : alookup callId s.activeCalls with
  | none =>
    have h1 : handleAnswerCall clientId callId now s = s := by
      unfold handleAnswerCall
      rw [hc]
    have h2 : handleRejectCall clientId callId now s = s := by
      unfold handleRejectCall
      rw [hc]
    have h3 : handleEndCall clientId callId now s = s := by
      unfold handleEndCall
      rw [hc]
    refine ⟨fun _ => ⟨h1, h2, h3⟩, ?_, ?_, ?_⟩
    · rw [h1, hc]
      rfl
    · rw [h2, hc]
    · rw [h3, hc]
  | some call =>
    have hmem := mem_map_fst_of_alookup hc
    refine ⟨fun h => absurd h (by simp), ?_, ?_, ?_⟩
    · unfold handleAnswerCall
      rw [hc]
      simp only [notifyParticipants_activeCalls, Option.map_some']
      exact alookup_mset_self _ _ _
    · unfold handleRejectCall
      rw [hc]
      simp only [notifyParticipants_activeCalls]
      refine alookup_mdelete_self ?_
      rw [map_fst_mset_of_mem _ hmem]
      exact hnd
    · unfold handleEndCall
      rw [hc]
      simp only [notifyParticipants_activeCalls]
      refine alookup_mdelete_self ?_
      rw [map_fst_mset_of_mem _ hmem]
      exact hnd

/-- C2 witness: the amended theorem applied to the concrete `sAnswered`
execution (where `k2` is active). -/
theorem c2_transitions_by_presence_witness :
    ((sAnswered.activeCalls.map Prod.fst).Nodup)
    ∧ (alookup "k2" sAnswered.activeCalls = none →
        handleAnswerCall "cb" "k2" "t9" sAnswered = sAnswered
        ∧ handleRejectCall "cb" "k2" "t9" sAnswered = sAnswered
        ∧ handleEndCall "cb" "k2" "t9" sAnswered = sAnswered)
    ∧ alookup "k2" (handleAnswerCall "cb" "k2" "t9" sAnswered).activeCalls
        = (alookup "k2" sAnswered.activeCalls).map (fun c =>
            { c with status := "active", answeredBy := some "cb",
                     answerTime := some "t9" })
    ∧ alookup "k2" (handleRejectCall "cb" "k2" "t9" sAnswered).activeCalls = none
    ∧ alookup "k2" (handleEndCall "cb" "k2" "t9" sAnswered).activeCalls = none :=
  ⟨by decide, c2_transitions_by_presence sAnswered "cb" "k2" "t9" (by decide)⟩

/-- C3: the claim is false on the code. `handleSendMessage` calls
`broadcastToRoom(roomId, ...)` WITHOUT the `excludeId` argument, so the
sender is not excluded. With `ca`,`cb`,`cc` in room `r1` and `ca` sending
one room message, all three — the sender `ca` included — receive exactly
one `NEW_MESSAGE`, contradicting "a sender … receives zero". -/
theorem c3_counterexample :
    (handleSendMessage "ca" none "hi" "text" (some "r1") "m1" "t4" sRoom3).log.drop
        sRoom3.log.length
      = [("ca", OutMsg.newMessage (mkMessageData "ca" none "hi" "text" (some "r1") "m1" "t4")),
         ("cb", OutMsg.newMessage (mkMessageData "ca" none "hi" "text" (some "r1") "m1" "t4")),
         ("cc", OutMsg.newMessage (mkMessageData "ca" none "hi" "text" (some "r1") "m1" "t4"))] :=
  rfl

/-- C3 (amended): a room message is appended to the room and broadcast to
every participant whose client is present and open, with NO exclusion of
the sender (the exclusion test is run against `excludeId = null` and is
vacuous): a sender who is an open participant of the room receives their
own `NEW_MESSAGE`. -/
theorem c3_room_broadcast_includes_sender (s : ServerState)
    (sender rid content mt msgId now : String)
    (hcl : (alookup sender s.clients).isSome = true)
    (room : Room) (hroom : alookup rid s.chatRooms = some room) :
    (handleSendMessage sender none content mt (some rid) msgId now s).log
      = s.log ++ (heapGet s.heap room.participantsRef).filterMap
          (fun pid => if some pid ≠ (none : Option String) ∧ isOpen s pid then
            some (pid, OutMsg.newMessage (mkMessageData sender none content mt (some rid) msgId now))
          else none)
    ∧ (sender ∈ heapGet s.heap room.participantsRef → isOpen s sender = true →
        (sender, OutMsg.newMessage (mkMessageData sender none content mt (some rid) msgId now))
          ∈ (handleSendMessage sender none content mt (some rid) msgId now s).log) := by
  obtain ⟨cl, hcl'⟩ := Option.isSome_iff_exists.mp hcl
  have hlog : (handleSendMessage sender none content mt (some rid) msgId now s).log
      = s.log ++ (heapGet s.heap room.participantsRef).filterMap
        (fun pid => if some pid ≠ (none : Option String) ∧ isOpen s pid then
          some (pid, OutMsg.newMessage (mkMessageData sender none content mt (some rid) msgId now))
        else none) := by
    unfold handleSendMessage
    simp only [hcl', hroom]
    unfold broadcastToRoom
    simp only [alookup_mset_self]
    congr 1
  refine ⟨hlog, fun hmem hopen => ?_⟩
  rw [hlog]
  refine List.mem_append_right _ (List.mem_filterMap.mpr ⟨sender, hmem, ?_⟩)
  rw [if_pos ⟨Option.some_ne_none sender, hopen⟩]

/-- C3 witness: the amended theorem at the concrete `sRoom3` execution. -/
theorem c3_room_broadcast_includes_sender_witness :
    (alookup "ca" sRoom3.clients).isSome = true
    ∧ ((handleSendMessage "ca" none "hi" "text" (some "r1") "m1" "t4" sRoom3).log
        = sRoom3.log ++ (heapGet sRoom3.heap 0).filterMap
            (fun pid => if some pid ≠ (none : Option String) ∧ isOpen sRoom3 pid then
              some (pid, OutMsg.newMessage (mkMessageData "ca" none "hi" "text" (some "r1") "m1" "t4"))
            else none)
      ∧ ("ca" ∈ heapGet sRoom3.heap 0 → isOpen sRoom3 "ca" = true →
          ("ca", OutMsg.newMessage (mkMessageData "ca" none "hi" "text" (some "r1") "m1" "t4"))
            ∈ (handleSendMessage "ca" none "hi" "text" (some "r1") "m1" "t4" sRoom3).log)) :=
  ⟨by decide,
    c3_room_broadcast_includes_sender sRoom3 "ca" "r1" "hi" "text" "m1" "t4" (by decide)
      { id := "r1", name := "Room r1", participantsRef := 0, messages := [], createdAt := "t1" }
      (by decide)⟩

set_option maxRecDepth 100000 in
/-- C4: the claim is false on the code. `handleSendMessage` only does
`room.messages.push(messageData)` — it never evicts. After 51 sends into
room `r1` the STORED history has 51 entries, exceeding the claimed bound
of 50. -/
theorem c4_counterexample :
    (roomMessages s51 "r1").map List.length = some 51 := by
  decide

/-- C4 (amended): appending a room message never evicts anything: the
stored history is the old history plus the new message (so it grows
without bound); only the `ROOM_JOINED` view returned by join is truncated
to 50 (see the C8 theorem). -/
theorem c4_history_append_unbounded (s : ServerState)
    (sender rid content mt msgId now : String)
    (hcl : (alookup sender s.clients).isSome = true)
    (room : Room) (hroom : alookup rid s.chatRooms = some room) :
    roomMessages (handleSendMessage sender none content mt (some rid) msgId now s) rid
      = some (room.messages ++ [mkMessageData sender none content mt (some rid) msgId now]) := by
  obtain ⟨cl, hcl'⟩ := Option.isSome_iff_exists.mp hcl
  unfold handleSendMessage
  simp only [hcl', hroom]
  unfold roomMessages
  simp only [broadcastToRoom_chatRooms, alookup_mset_self]
  rfl

set_option maxRecDepth 100000 in
/-- C4 witness: the amended theorem applied to `s51` itself — the 52nd
append again just appends (52 stored messages). -/
theorem c4_history_append_unbounded_witness :
    (alookup "ca" s51.clients).isSome = true
    ∧ roomMessages (handleSendMessage "ca" none "y" "text" (some "r1") "m52" "t9" s51) "r1"
        = some (((roomMessages s51 "r1").getD [])
            ++ [mkMessageData "ca" none "y" "text" (some "r1") "m52" "t9"]) := by
  refine ⟨by decide, ?_⟩
  have h := c4_history_append_unbounded s51 "ca" "r1" "y" "text" "m52" "t9" (by decide)
    ((alookup "r1" s51.chatRooms).getD
      { id := "r1", name := "", participantsRef := 0, messages := [], createdAt := "" })
    (by decide)
  exact h.trans (by decide)

theorem usernames_mset_subset (cid : String) (u : User) (users : List (String × User)) :
    ∀ x ∈ (mset cid u users).map (fun e => e.2.username),
      x = u.username ∨ x ∈ users.map (fun e => e.2.username) := by
  induction users with
  | nil =>
    intro x hx
    simp [mset] at hx
    exact Or.inl hx
  | cons e t ih =>
    intro x hx
    by_cases he : e.1 = cid
    · rw [mset, if_pos he, List.map_cons] at hx
      rcases List.mem_cons.mp hx with hx | hx
      · exact Or.inl hx
      · exact Or.inr (List.mem_cons_of_mem _ hx)
    · rw [mset, if_neg he, List.map_cons] at hx
      rcases List.mem_cons.mp hx with hx | hx
      · exact Or.inr (List.mem_cons.mpr (Or.inl hx))
      · rcases ih x hx with hx | hx
        · exact Or.inl hx
        · exact Or.inr (List.mem_cons_of_mem _ hx)

theorem usernames_mset_nodup (cid : String) (u : User) (users : List (String × User))
    (hnd : (users.map (fun e => e.2.username)).Nodup)
    (hnew : u.username ∉ users.map (fun e => e.2.username)) :
    ((mset cid u users).map (fun e => e.2.username)).Nodup := by
  induction users with
  | nil => simp [mset]
  | cons e t iht =>
    simp only [List.map_cons, List.nodup_cons, List.mem_cons] at hnd hnew
    push_neg at hnew
    by_cases he : e.1 = cid
    · rw [mset, if_pos he, List.map_cons, List.nodup_cons]
      exact ⟨hnew.2, hnd.2⟩
    · rw [mset, if_neg he, List.map_cons, List.nodup_cons]
      refine ⟨fun hc => ?_, iht hnd.2 hnew.2⟩
      rcases usernames_mset_subset cid u t _ hc with hx | hx
      · exact hnew.1 hx.symm
      · exact hnd.1 hx

/-- C5 (confirmed): registration preserves global username uniqueness, and
a duplicate attempt only emits a `USERNAME_EXISTS` error to the sender —
the identity directory and every other registry are untouched, and exactly
one identity with that username remains. -/
theorem c5_register_username_unique (s : ServerState) (cid uname : String)
    (avatar : Option String) (w : Bool) (now : String)
    (hnodup : (usernames s).Nodup) :
    (usernames (handleUserRegister cid uname avatar w now s)).Nodup
    ∧ (uname ∈ usernames s →
        (handleUserRegister cid uname avatar w now s).users = s.users
        ∧ (handleUserRegister cid uname avatar w now s).clients = s.clients
        ∧ (handleUserRegister cid uname avatar w now s).chatRooms = s.chatRooms
        ∧ (handleUserRegister cid uname avatar w now s).activeCalls = s.activeCalls
        ∧ (handleUserRegister cid uname avatar w now s).heap = s.heap
        ∧ (handleUserRegister cid uname avatar w now s).log
            = s.log ++ [(cid, OutMsg.errorMsg (some "USERNAME_EXISTS")
                ("Username \"" ++ uname
                  ++ "\" already exists. Please choose a different username."))]
        ∧ (usernames (handleUserRegister cid uname avatar w now s)).count uname = 1) := by
  have hiff : ((s.users.map Prod.snd).any (fun u => u.username = uname) = true)
      ↔ uname ∈ usernames s := by
    simp only [List.any_eq_true, List.mem_map, decide_eq_true_eq, usernames]
    constructor
    · rintro ⟨u, ⟨e, he, rfl⟩, hu⟩
      exact ⟨e, he, hu⟩
    · rintro ⟨e, he, hu⟩
      exact ⟨e.2, ⟨e, he, rfl⟩, hu⟩
  by_cases hany : (s.users.map Prod.snd).any (fun u => u.username = uname) = true
  · have hmem : uname ∈ usernames s := hiff.mp hany
    have hsame : handleUserRegister cid uname avatar w now s
        = s.push cid (OutMsg.errorMsg (some "USERNAME_EXISTS")
            ("Username \"" ++ uname
              ++ "\" already exists. Please choose a different username.")) := by
      unfold handleUserRegister
      rw [if_pos hany]
    rw [hsame]
    refine ⟨hnodup, fun _ => ⟨rfl, rfl, rfl, rfl, rfl, rfl, ?_⟩⟩
    exact List.count_eq_one_of_mem hnodup hmem
    -- `usernames (s.push ...)` is definitionally `usernames s`
  · have hnew : uname ∉ usernames s := fun hc => hany (hiff.mpr hc)
    have hnd' : (usernames (handleUserRegister cid uname avatar w now s)).Nodup := by
      unfold handleUserRegister
      rw [if_neg hany]
      simp only [broadcastToAll_users, push_users, usernames]
      exact usernames_mset_nodup cid _ s.users hnodup hnew
    exact ⟨hnd', fun hc => absurd hc hnew⟩

/-- C5 witness: registering "alice" a second time (from connection `cx`)
on the concrete `sReg` state. -/
theorem c5_register_username_unique_witness :
    (usernames sReg).Nodup
    ∧ ((usernames (handleUserRegister "cx" "alice" none true "t9" sReg)).Nodup
      ∧ ("alice" ∈ usernames sReg →
          (handleUserRegister "cx" "alice" none true "t9" sReg).users = sReg.users
          ∧ (handleUserRegister "cx" "alice" none true "t9" sReg).clients = sReg.clients
          ∧ (handleUserRegister "cx" "alice" none true "t9" sReg).chatRooms = sReg.chatRooms
          ∧ (handleUserRegister "cx" "alice" none true "t9" sReg).activeCalls = sReg.activeCalls
          ∧ (handleUserRegister "cx" "alice" none true "t9" sReg).heap = sReg.heap
          ∧ (handleUserRegister "cx" "alice" none true "t9" sReg).log
              = sReg.log ++ [("cx", OutMsg.errorMsg (some "USERNAME_EXISTS")
                  ("Username \"" ++ "alice"
                    ++ "\" already exists. Please choose a different username."))]
          ∧ (usernames (handleUserRegister "cx" "alice" none true "t9" sReg)).count "alice"
              = 1)) :=
  ⟨by decide, c5_register_username_unique sReg "cx" "alice" none true "t9" (by decide)⟩

theorem broadcastToRoom_log_append (rid : String) (m : OutMsg) (ex : Option String)
    (s : ServerState) :
    ∃ tl, (broadcastToRoom rid m ex s).log = s.log ++ tl := by
  unfold broadcastToRoom
  split
  · exact ⟨[], (List.append_nil _).symm⟩
  · exact ⟨_, rfl⟩

theorem mem_log_broadcastToRoom (rid : String) (m : OutMsg) (ex : Option String)
    (s : ServerState) (x : String × OutMsg) (hx : x ∈ s.log) :
    x ∈ (broadcastToRoom rid m ex s).log := by
  obtain ⟨tl, ht⟩ := broadcastToRoom_log_append rid m ex s
  rw [ht]
  exact List.mem_append_left _ hx

/-- C8 (confirmed): joining a room whose stored history exceeds 50
messages replies `ROOM_JOINED` with exactly the 50 most recent stored
messages (`messages.slice(-50)`), a contiguous final segment of the stored
history, hence in creation order. -/
theorem c8_join_returns_last_50 (s : ServerState) (c rid : String) (rname : Option String)
    (now : String) (room : Room)
    (hroom : alookup rid s.chatRooms = some room)
    (hlen : 50 < room.messages.length)
    (hcl : (alookup c s.clients).isSome = true) :
    ∃ v : RoomView,
      (c, OutMsg.roomJoined v) ∈ (handleJoinRoom c rid rname now s).log
      ∧ v.messages = room.messages.drop (room.messages.length - 50)
      ∧ v.messages.length = 50
      ∧ room.messages = room.messages.take (room.messages.length - 50) ++ v.messages := by
  obtain ⟨cl, hcl'⟩ := Option.isSome_iff_exists.mp hcl
  have h50 : (room.messages.drop (room.messages.length - 50)).length = 50 := by
    rw [List.length_drop]
    omega
  unfold handleJoinRoom
  simp only [hroom]
  by_cases hin : c ∈ heapGet s.heap room.participantsRef
  · rw [if_pos hin]
    simp only [hcl']
    refine ⟨_, mem_log_broadcastToRoom _ _ _ _ _
      (List.mem_append_right _ (List.mem_singleton_self _)), rfl, h50,
      (List.take_append_drop _ _).symm⟩
  · rw [if_neg hin]
    simp only [hcl']
    refine ⟨_, mem_log_broadcastToRoom _ _ _ _ _
      (List.mem_append_right _ (List.mem_singleton_self _)), rfl, h50,
      (List.take_append_drop _ _).symm⟩

set_option maxRecDepth 100000 in
/-- C8 witness: joining `r1` in `s51` (51 stored messages) returns the 50
most recent. -/
theorem c8_join_returns_last_50_witness :
    50 < ((roomMessages s51 "r1").getD []).length
    ∧ ∃ v : RoomView,
        ("ca", OutMsg.roomJoined v) ∈ (handleJoinRoom "ca" "r1" none "t9" s51).log
        ∧ v.messages = ((roomMessages s51 "r1").getD []).drop
            (((roomMessages s51 "r1").getD []).length - 50)
        ∧ v.messages.length = 50
        ∧ ((roomMessages s51 "r1").getD [])
            = ((roomMessages s51 "r1").getD []).take
                (((roomMessages s51 "r1").getD []).length - 50) ++ v.messages := by
  refine ⟨by decide, ?_⟩
  have h := c8_join_returns_last_50 s51 "ca" "r1" none "t9"
    ((alookup "r1" s51.chatRooms).getD
      { id := "r1", name := "", participantsRef := 0, messages := [], createdAt := "" })
    (by decide) (by decide) (by decide)
  exact h

/-- C9 (confirmed): answer, reject and end check only that the call id is
in the active set; a connected client that is NOT a member of the call's
participants can still answer (call becomes active, `answeredBy` set to
that client), reject (call removed) or end (call removed) it. -/
theorem c9_call_ops_check_only_presence (s : ServerState) (actor callId now : String)
    (hnd : (s.activeCalls.map Prod.fst).Nodup)
    (call : Call) (hcall : alookup callId s.activeCalls = some call)
    (hnotmem : actor ∉ heapGet s.heap call.participantsRef)
    (hconn : (alookup actor s.clients).isSome = true) :
    alookup callId (handleAnswerCall actor callId now s).activeCalls
      = some { call with
          status := "active",
          answeredBy := some actor,
          answerTime := some now }
    ∧ alookup callId (handleRejectCall actor callId now s).activeCalls = none
    ∧ alookup callId (handleEndCall actor callId now s).activeCalls = none := by
  have hmem := mem_map_fst_of_alookup hcall
  refine ⟨?_, ?_, ?_⟩
  · unfold handleAnswerCall
    rw [hcall]
    simp only [notifyParticipants_activeCalls]
    exact alookup_mset_self _ _ _
  · unfold handleRejectCall
    rw [hcall]
    simp only [notifyParticipants_activeCalls]
    refine alookup_mdelete_self ?_
    rw [map_fst_mset_of_mem _ hmem]
    exact hnd
  · unfold handleEndCall
    rw [hcall]
    simp only [notifyParticipants_activeCalls]
    refine alookup_mdelete_self ?_
    rw [map_fst_mset_of_mem _ hmem]
    exact hnd

/-- C9 witness: `cc` is registered but not a participant of room call `k1`
(participants `[ca, cb]`), yet its answer/reject/end all take effect. -/
theorem c9_call_ops_check_only_presence_witness :
    ((sRoomCall.activeCalls.map Prod.fst).Nodup)
    ∧ ("cc" ∉ heapGet sRoomCall.heap 0)
    ∧ (alookup "k1" (handleAnswerCall "cc" "k1" "t9" sRoomCall).activeCalls
        = some { id := "k1", initiator := "ca", participantsRef := 0,
                 callType := "video", status := "active", startTime := "t2",
                 roomId := some "r1", answeredBy := some "cc",
                 answerTime := some "t9", rejectedBy := none, endedBy := none,
                 endTime := none }
      ∧ alookup "k1" (handleRejectCall "cc" "k1" "t9" sRoomCall).activeCalls = none
      ∧ alookup "k1" (handleEndCall "cc" "k1" "t9" sRoomCall).activeCalls = none) := by
  have h := c9_call_ops_check_only_presence sRoomCall "cc" "k1" "t9" (by decide)
    { id := "k1", initiator := "ca", participantsRef := 0, callType := "video",
      status := "ringing", startTime := "t2", roomId := some "r1",
      answeredBy := none, answerTime := none, rejectedBy := none,
      endedBy := none, endTime := none }
    (by decide) (by decide) (by decide)
  exact ⟨by decide, by decide, h.1.trans (by decide), h.2.1, h.2.2⟩

/-- C10 (confirmed): a direct message (`to` set, no `roomId`) from a bound
client always appends a `MESSAGE_SENT` confirmation to the sender, whether
or not the recipient is bound and open — the recipient delivery is the
`if`-branch, the confirmation is unconditional, so the confirmation does
not imply delivery. -/
theorem c10_direct_confirmation_unconditional (s : ServerState)
    (c t content mt msgId now : String)
    (hcl : (alookup c s.clients).isSome = true) :
    (handleSendMessage c (some t) content mt none msgId now s).log
      = s.log
        ++ (if isOpen s t then
              [(t, OutMsg.newMessage (mkMessageData c (some t) content mt none msgId now))]
            else [])
        ++ [(c, OutMsg.messageSent (mkMessageData c (some t) content mt none msgId now))]
    ∧ (c, OutMsg.messageSent (mkMessageData c (some t) content mt none msgId now))
        ∈ (handleSendMessage c (some t) content mt none msgId now s).log := by
  obtain ⟨cl, hcl'⟩ := Option.isSome_iff_exists.mp hcl
  have heq : (handleSendMessage c (some t) content mt none msgId now s).log
      = s.log
        ++ (if isOpen s t then
              [(t, OutMsg.newMessage (mkMessageData c (some t) content mt none msgId now))]
            else [])
        ++ [(c, OutMsg.messageSent (mkMessageData c (some t) content mt none msgId now))] := by
    unfold handleSendMessage
    simp only [hcl']
    unfold sendToUser ServerState.push
    by_cases ho : isOpen s t = true
    · simp [ho]
    · simp [ho]
  refine ⟨heq, ?_⟩
  rw [heq]
  exact List.mem_append_right _ (List.mem_singleton_self _)

/-- C10 witness: recipient `zz` is not bound at all in `sReg`, yet the
sender `ca` still gets `MESSAGE_SENT`. -/
theorem c10_direct_confirmation_unconditional_witness :
    (alookup "ca" sReg.clients).isSome = true
    ∧ isOpen sReg "zz" = false
    ∧ ((handleSendMessage "ca" (some "zz") "hi" "text" none "m1" "t9" sReg).log
        = sReg.log
          ++ (if isOpen sReg "zz" then
                [("zz", OutMsg.newMessage (mkMessageData "ca" (some "zz") "hi" "text" none "m1" "t9"))]
              else [])
          ++ [("ca", OutMsg.messageSent (mkMessageData "ca" (some "zz") "hi" "text" none "m1" "t9"))]
      ∧ ("ca", OutMsg.messageSent (mkMessageData "ca" (some "zz") "hi" "text" none "m1" "t9"))
          ∈ (handleSendMessage "ca" (some "zz") "hi" "text" none "m1" "t9" sReg).log) :=
  ⟨by decide, by decide,
    c10_direct_confirmation_unconditional sReg "ca" "zz" "hi" "text" "m1" "t9" (by decide)⟩

/-! Support for the disconnect-cascade proofs. -/

theorem heapGet_cons_self (n : Nat) (a : List String) (h) :
    heapGet ((n, a) :: h) n = a := by
  simp [heapGet, alookup]

theorem isOpen_of_clients (t s : ServerState) (p : String)
    (h : alookup p t.clients = alookup p s.clients) : isOpen t p = isOpen s p := by
  unfold isOpen
  rw [h]

theorem handleEndCall_frame (u cid now : String) (st : ServerState) :
    (handleEndCall u cid now st).clients = st.clients
    ∧ (handleEndCall u cid now st).users = st.users
    ∧ (handleEndCall u cid now st).chatRooms = st.chatRooms
    ∧ (handleEndCall u cid now st).heap = st.heap
    ∧ (handleEndCall u cid now st).nextRef = st.nextRef
    ∧ ∃ tl, (handleEndCall u cid now st).log = st.log ++ tl := by
  unfold handleEndCall
  cases h : alookup cid st.activeCalls with
  | none => exact ⟨rfl, rfl, rfl, rfl, rfl, [], (List.append_nil _).symm⟩
  | some call => exact ⟨rfl, rfl, rfl, rfl, rfl, _, rfl⟩

theorem endCallsStep_frame (u now : String) (st : ServerState) (e : String × Call) :
    (endCallsStep u now st e).clients = st.clients
    ∧ (endCallsStep u now st e).users = st.users
    ∧ (endCallsStep u now st e).chatRooms = st.chatRooms
    ∧ (endCallsStep u now st e).heap = st.heap
    ∧ (endCallsStep u now st e).nextRef = st.nextRef
    ∧ ∃ tl, (endCallsStep u now st e).log = st.log ++ tl := by
  unfold endCallsStep
  split
  · exact handleEndCall_frame u e.1 now st
  · exact ⟨rfl, rfl, rfl, rfl, rfl, [], (List.append_nil _).symm⟩

theorem handleEndCall_activeCalls_other (u cid now : String) (st : ServerState)
    (k : String) (hk : k ≠ cid) :
    alookup k (handleEndCall u cid now st).activeCalls = alookup k st.activeCalls := by
  unfold handleEndCall
  cases h : alookup cid st.activeCalls with
  | none => rfl
  | some call =>
    simp only [notifyParticipants_activeCalls]
    rw [alookup_mdelete_ne _ (Ne.symm hk), alookup_mset_ne _ _ (Ne.symm hk)]

theorem endCallsStep_activeCalls_other (u now : String) (st : ServerState)
    (e : String × Call) (k : String) (hk : k ≠ e.1) :
    alookup k (endCallsStep u now st e).activeCalls = alookup k st.activeCalls := by
  unfold endCallsStep
  split
  · exact handleEndCall_activeCalls_other u e.1 now st k hk
  · rfl

theorem handleEndCall_keys_nodup (u cid now : String) (st : ServerState)
    (hnd : (st.activeCalls.map Prod.fst).Nodup) :
    ((handleEndCall u cid now st).activeCalls.map Prod.fst).Nodup := by
  unfold handleEndCall
  cases h : alookup cid st.activeCalls with
  | none => exact hnd
  | some call =>
    simp only [notifyParticipants_activeCalls]
    refine List.Nodup.sublist (map_fst_mdelete_sublist _ _) ?_
    rw [map_fst_mset_of_mem _ (mem_map_fst_of_alookup h)]
    exact hnd

theorem endCallsStep_keys_nodup (u now : String) (st : ServerState) (e : String × Call)
    (hnd : (st.activeCalls.map Prod.fst).Nodup) :
    ((endCallsStep u now st e).activeCalls.map Prod.fst).Nodup := by
  unfold endCallsStep
  split
  · exact handleEndCall_keys_nodup u e.1 now st hnd
  · exact hnd

theorem handleEndCall_activeCalls_self (u cid now : String) (st : ServerState)
    (hnd : (st.activeCalls.map Prod.fst).Nodup)
    (call : Call) (h : alookup cid st.activeCalls = some call) :
    alookup cid (handleEndCall u cid now st).activeCalls = none := by
  unfold handleEndCall
  rw [h]
  simp only [notifyParticipants_activeCalls]
  refine alookup_mdelete_self ?_
  rw [map_fst_mset_of_mem _ (mem_map_fst_of_alookup h)]
  exact hnd

theorem handleEndCall_log (u cid now : String) (st : ServerState)
    (call : Call) (h : alookup cid st.activeCalls = some call) :
    (handleEndCall u cid now st).log
      = st.log ++ (heapGet st.heap call.participantsRef).filterMap
          (fun pid => if isOpen st pid then
            some (pid, OutMsg.callEnded (callView st
              { call with status := "ended", endTime := some now, endedBy := some u }))
          else none) := by
  unfold handleEndCall
  rw [h]
  rfl

theorem callsFold_spec (u now : String) :
    ∀ (l : List (String × Call)) (st : ServerState),
      (st.activeCalls.map Prod.fst).Nodup →
      (∀ e ∈ l, alookup e.1 st.activeCalls = some e.2) →
      ((l.map Prod.fst).Nodup) →
      ((l.foldl (endCallsStep u now) st).clients = st.clients
        ∧ (l.foldl (endCallsStep u now) st).users = st.users
        ∧ (l.foldl (endCallsStep u now) st).chatRooms = st.chatRooms
        ∧ (l.foldl (endCallsStep u now) st).heap = st.heap
        ∧ (l.foldl (endCallsStep u now) st).nextRef = st.nextRef
        ∧ (∃ tl, (l.foldl (endCallsStep u now) st).log = st.log ++ tl))
      ∧ (∀ e ∈ l, u ∈ heapGet st.heap e.2.participantsRef →
          alookup e.1 (l.foldl (endCallsStep u now) st).activeCalls = none
          ∧ ∀ p ∈ heapGet st.heap e.2.participantsRef, isOpen st p = true →
              ∃ v : CallView,
                (p, OutMsg.callEnded v) ∈ (l.foldl (endCallsStep u now) st).log
                ∧ v.status = "ended" ∧ v.id = e.2.id) := by
  intro l
  induction l with
  | nil =>
    intro st _ _ _
    exact ⟨⟨rfl, rfl, rfl, rfl, rfl, [], (List.append_nil _).symm⟩, fun e he => absurd he (by simp)⟩
  | cons e t ih =>
    intro st hnd hlook hkeys
    simp only [List.map_cons, List.nodup_cons] at hkeys
    have hlooke : alookup e.1 st.activeCalls = some e.2 := hlook e (List.mem_cons_self _ _)
    have hfr := endCallsStep_frame u now st e
    obtain ⟨hfc, hfu, hfr2, hfh, hfn, tl₁, hfl⟩ := hfr
    have hnd' : ((endCallsStep u now st e).activeCalls.map Prod.fst).Nodup :=
      endCallsStep_keys_nodup u now st e hnd
    have hlook' : ∀ e' ∈ t, alookup e'.1 (endCallsStep u now st e).activeCalls = some e'.2 := by
      intro e' he'
      have hne : e'.1 ≠ e.1 := fun hc => hkeys.1 (hc ▸ List.mem_map_of_mem Prod.fst he')
      rw [endCallsStep_activeCalls_other u now st e e'.1 hne]
      exact hlook e' (List.mem_cons_of_mem _ he')
    have IH := ih (endCallsStep u now st e) hnd' hlook' hkeys.2
    obtain ⟨⟨ihc, ihu, ihr, ihh, ihn, tl₂, ihl⟩, ihP⟩ := IH
    rw [List.foldl_cons]
    refine ⟨⟨ihc.trans hfc, ihu.trans hfu, ihr.trans hfr2, ihh.trans hfh, ihn.trans hfn,
      tl₁ ++ tl₂, by rw [ihl, hfl, List.append_assoc]⟩, ?_⟩
    intro e'' he'' hu
    rcases List.mem_cons.mp he'' with he'' | he''
    · -- the head entry: this is the step that ends the call
      subst he''
      have hstep : endCallsStep u now st e'' = handleEndCall u e''.1 now st := by
        unfold endCallsStep
        rw [if_pos hu]
      constructor
      · -- the call id stays deleted through the rest of the fold
        have hnone : alookup e''.1 (endCallsStep u now st e'').activeCalls = none := by
          rw [hstep]
          exact handleEndCall_activeCalls_self u e''.1 now st hnd e''.2 hlooke
        -- preservation over t
        clear ihP ihl
        have hpres : ∀ (t' : List (String × Call)) (st' : ServerState),
            e''.1 ∉ t'.map Prod.fst →
            alookup e''.1 st'.activeCalls = none →
            alookup e''.1 (t'.foldl (endCallsStep u now) st').activeCalls = none := by
          intro t'
          induction t' with
          | nil => intro st' _ h; exact h
          | cons x xs ihx =>
            intro st' hx h
            simp only [List.map_cons, List.mem_cons] at hx
            push_neg at hx
            rw [List.foldl_cons]
            exact ihx _ hx.2 (by
              rw [endCallsStep_activeCalls_other u now st' x e''.1 hx.1]
              exact h)
        exact hpres t _ hkeys.1 hnone
      · -- every open participant got the CALL_ENDED notification
        intro p hp hopen
        refine ⟨callView st { e''.2 with
            status := "ended", endTime := some now, endedBy := some u }, ?_, rfl, rfl⟩
        have hmem1 : (p, OutMsg.callEnded (callView st { e''.2 with
            status := "ended", endTime := some now, endedBy := some u }))
            ∈ (endCallsStep u now st e'').log := by
          rw [hstep, handleEndCall_log u e''.1 now st e''.2 hlooke]
          refine List.mem_append_right _ (List.mem_filterMap.mpr ⟨p, hp, ?_⟩)
          rw [if_pos hopen]
        rw [ihl]
        exact List.mem_append_left _ hmem1
    · -- a later entry: the induction hypothesis applies
      have hu' : u ∈ heapGet (endCallsStep u now st e).heap e''.2.participantsRef := by
        rw [hfh]
        exact hu
      have h := ihP e'' he'' hu'
      refine ⟨h.1, fun p hp hopen => ?_⟩
      have hp' : p ∈ heapGet (endCallsStep u now st e).heap e''.2.participantsRef := by
        rw [hfh]
        exact hp
      have hopen' : isOpen (endCallsStep u now st e) p = true := by
        rw [isOpen_of_clients _ st p (by rw [hfc])]
        exact hopen
      exact h.2 p hp' hopen'

theorem removeFromRoomsStep_frame (u : String) (st : ServerState) (e : String × Room) :
    (removeFromRoomsStep u st e).clients = st.clients
    ∧ (removeFromRoomsStep u st e).users = st.users
    ∧ (removeFromRoomsStep u st e).activeCalls = st.activeCalls
    ∧ (∃ tl, (removeFromRoomsStep u st e).log = st.log ++ tl)
    ∧ st.nextRef ≤ (removeFromRoomsStep u st e).nextRef := by
  unfold removeFromRoomsStep
  split
  · refine ⟨by simp, by simp, by simp, ?_, by simp⟩
    obtain ⟨tl, htl⟩ := broadcastToRoom_log_append e.1 (.userLeftRoom u) (some u) _
    exact ⟨tl, htl⟩
  · exact ⟨rfl, rfl, rfl, ⟨[], (List.append_nil _).symm⟩, le_refl _⟩

theorem removeFromRoomsStep_heapStable (u : String) (st : ServerState) (e : String × Room)
    (hk : ∀ k ∈ st.heap.map Prod.fst, k < st.nextRef) :
    (∀ k ∈ (removeFromRoomsStep u st e).heap.map Prod.fst,
        k < (removeFromRoomsStep u st e).nextRef)
    ∧ (∀ r, r < st.nextRef →
        heapGet (removeFromRoomsStep u st e).heap r = heapGet st.heap r) := by
  unfold removeFromRoomsStep
  split
  · simp only [broadcastToRoom_heap, broadcastToRoom_nextRef]
    constructor
    · intro k hkm
      simp only [List.map_cons, List.mem_cons] at hkm
      rcases hkm with hkm | hkm
      · omega
      · exact Nat.lt_succ_of_lt (hk k hkm)
    · intro r hr
      exact heapGet_cons_ne _ _ (by omega)
  · exact ⟨hk, fun r _ => rfl⟩

theorem removeFromRoomsStep_chatRooms_other (u : String) (st : ServerState)
    (e : String × Room) (k : String) (hk : k ≠ e.1) :
    alookup k (removeFromRoomsStep u st e).chatRooms = alookup k st.chatRooms := by
  unfold removeFromRoomsStep
  split
  · simp only [broadcastToRoom_chatRooms]
    exact alookup_mset_ne _ _ (Ne.symm hk)
  · rfl

theorem removeFromRoomsStep_keys (u : String) (st : ServerState) (e : String × Room)
    (hmem : e.1 ∈ st.chatRooms.map Prod.fst) :
    (removeFromRoomsStep u st e).chatRooms.map Prod.fst = st.chatRooms.map Prod.fst := by
  unfold removeFromRoomsStep
  split
  · simp only [broadcastToRoom_chatRooms]
    exact map_fst_mset_of_mem _ hmem
  · rfl

theorem removeFromRoomsStep_target (u : String) (st : ServerState) (e : String × Room)
    (hin : u ∈ heapGet st.heap e.2.participantsRef) :
    alookup e.1 (removeFromRoomsStep u st e).chatRooms
      = some { e.2 with participantsRef := st.nextRef }
    ∧ heapGet (removeFromRoomsStep u st e).heap st.nextRef
      = (heapGet st.heap e.2.participantsRef).filter (fun pid => pid ≠ u)
    ∧ (removeFromRoomsStep u st e).nextRef = st.nextRef + 1
    ∧ (∀ p ∈ heapGet st.heap e.2.participantsRef, p ≠ u → isOpen st p = true →
        (p, OutMsg.userLeftRoom u) ∈ (removeFromRoomsStep u st e).log) := by
  have hstep : removeFromRoomsStep u st e
      = broadcastToRoom e.1 (.userLeftRoom u) (some u)
          { st with
            heap := (st.nextRef,
              (heapGet st.heap e.2.participantsRef).filter (fun pid => pid ≠ u)) :: st.heap,
            nextRef := st.nextRef + 1,
            chatRooms := mset e.1 { e.2 with participantsRef := st.nextRef } st.chatRooms } := by
    unfold removeFromRoomsStep
    rw [if_pos hin]
  refine ⟨?_, ?_, ?_, ?_⟩
  · rw [hstep, broadcastToRoom_chatRooms]
    exact alookup_mset_self _ _ _
  · rw [hstep, broadcastToRoom_heap]
    exact heapGet_cons_self _ _ _
  · rw [hstep, broadcastToRoom_nextRef]
  · intro p hp hpne hopen
    rw [hstep]
    unfold broadcastToRoom
    simp only [alookup_mset_self]
    simp only [heapGet_cons_self]
    refine List.mem_append_right _ (List.mem_filterMap.mpr ⟨p, ?_, ?_⟩)
    · exact List.mem_filter.mpr ⟨hp, by simp [hpne]⟩
    · rw [if_pos ⟨fun hc => hpne (Option.some.inj hc), hopen⟩]

theorem roomsFold_spec (u : String) :
    ∀ (l : List (String × Room)) (st : ServerState),
      (∀ k ∈ st.heap.map Prod.fst, k < st.nextRef) →
      (st.chatRooms.map Prod.fst).Nodup →
      ((l.map Prod.fst).Nodup) →
      (∀ e ∈ l, alookup e.1 st.chatRooms = some e.2) →
      (∀ e ∈ l, e.2.participantsRef < st.nextRef) →
      ((l.foldl (removeFromRoomsStep u) st).clients = st.clients
        ∧ (l.foldl (removeFromRoomsStep u) st).users = st.users
        ∧ (l.foldl (removeFromRoomsStep u) st).activeCalls = st.activeCalls
        ∧ (∃ tl, (l.foldl (removeFromRoomsStep u) st).log = st.log ++ tl)
        ∧ st.nextRef ≤ (l.foldl (removeFromRoomsStep u) st).nextRef
        ∧ (∀ k ∈ (l.foldl (removeFromRoomsStep u) st).heap.map Prod.fst,
            k < (l.foldl (removeFromRoomsStep u) st).nextRef)
        ∧ (∀ r, r < st.nextRef →
            heapGet (l.foldl (removeFromRoomsStep u) st).heap r = heapGet st.heap r)
        ∧ (l.foldl (removeFromRoomsStep u) st).chatRooms.map Prod.fst
            = st.chatRooms.map Prod.fst
        ∧ (∀ k, k ∉ l.map Prod.fst →
            alookup k (l.foldl (removeFromRoomsStep u) st).chatRooms
              = alookup k st.chatRooms))
      ∧ (∀ e ∈ l, ∃ r' : Room,
          alookup e.1 (l.foldl (removeFromRoomsStep u) st).chatRooms = some r'
          ∧ u ∉ heapGet (l.foldl (removeFromRoomsStep u) st).heap r'.participantsRef
          ∧ (u ∈ heapGet st.heap e.2.participantsRef →
              ∀ p ∈ heapGet st.heap e.2.participantsRef, p ≠ u → isOpen st p = true →
                (p, OutMsg.userLeftRoom u) ∈ (l.foldl (removeFromRoomsStep u) st).log)) := by
  intro l
  induction l with
  | nil =>
    intro st hk _ _ _ _
    exact ⟨⟨rfl, rfl, rfl, ⟨[], (List.append_nil _).symm⟩, le_refl _, hk, fun r _ => rfl,
      rfl, fun k _ => rfl⟩, fun e he => absurd he (by simp)⟩
  | cons e t ih =>
    intro st hk hndR hkeys hlook hrefs
    simp only [List.map_cons, List.nodup_cons] at hkeys
    have hlooke : alookup e.1 st.chatRooms = some e.2 := hlook e (List.mem_cons_self _ _)
    have hmemR : e.1 ∈ st.chatRooms.map Prod.fst := mem_map_fst_of_alookup hlooke
    have hrefe : e.2.participantsRef < st.nextRef := hrefs e (List.mem_cons_self _ _)
    obtain ⟨hfc, hfu, hfa, ⟨tl₁, hfl⟩, hfn⟩ := removeFromRoomsStep_frame u st e
    obtain ⟨hk', hstab⟩ := removeFromRoomsStep_heapStable u st e hk
    have hkeys' := removeFromRoomsStep_keys u st e hmemR
    have hndR' : ((removeFromRoomsStep u st e).chatRooms.map Prod.fst).Nodup := by
      rw [hkeys']
      exact hndR
    have hlook' : ∀ e' ∈ t, alookup e'.1 (removeFromRoomsStep u st e).chatRooms = some e'.2 := by
      intro e' he'
      have hne : e'.1 ≠ e.1 := fun hc => hkeys.1 (hc ▸ List.mem_map_of_mem Prod.fst he')
      rw [removeFromRoomsStep_chatRooms_other u st e e'.1 hne]
      exact hlook e' (List.mem_cons_of_mem _ he')
    have hrefs' : ∀ e' ∈ t, e'.2.participantsRef < (removeFromRoomsStep u st e).nextRef := by
      intro e' he'
      exact lt_of_lt_of_le (hrefs e' (List.mem_cons_of_mem _ he')) hfn
    have IH := ih (removeFromRoomsStep u st e) hk' hndR' hkeys.2 hlook' hrefs'
    obtain ⟨⟨ihc, ihu, iha, ⟨tl₂, ihl⟩, ihn, ihk, ihstab, ihkeys, ihother⟩, ihP⟩ := IH
    rw [List.foldl_cons]
    have hstab2 : ∀ r, r < st.nextRef →
        heapGet (t.foldl (removeFromRoomsStep u) (removeFromRoomsStep u st e)).heap r
          = heapGet st.heap r := by
      intro r hr
      rw [ihstab r (lt_of_lt_of_le hr hfn), hstab r hr]
    refine ⟨⟨ihc.trans hfc, ihu.trans hfu, iha.trans hfa,
      ⟨tl₁ ++ tl₂, by rw [ihl, hfl, List.append_assoc]⟩,
      le_trans hfn ihn, ihk, hstab2, ihkeys.trans hkeys', ?_⟩, ?_⟩
    · intro k hkni
      simp only [List.map_cons, List.mem_cons] at hkni
      push_neg at hkni
      rw [ihother k hkni.2, removeFromRoomsStep_chatRooms_other u st e k hkni.1]
    · intro e'' he''
      rcases List.mem_cons.mp he'' with he'' | he''
      · subst he''
        by_cases hin : u ∈ heapGet st.heap e''.2.participantsRef
        · obtain ⟨htg1, htg2, htg3, htg4⟩ := removeFromRoomsStep_target u st e'' hin
          refine ⟨{ e''.2 with participantsRef := st.nextRef }, ?_, ?_, ?_⟩
          · rw [ihother e''.1 hkeys.1, htg1]
          · show u ∉ heapGet
              (t.foldl (removeFromRoomsStep u) (removeFromRoomsStep u st e'')).heap st.nextRef
            rw [ihstab st.nextRef (by rw [htg3]; exact Nat.lt_succ_self _), htg2]
            intro hc
            have hcon := (List.mem_filter.mp hc).2
            simp at hcon
          · intro _ p hp hpne hopen
            have hmem1 := htg4 p hp hpne hopen
            rw [ihl]
            exact List.mem_append_left _ hmem1
        · have hstepeq : removeFromRoomsStep u st e'' = st := by
            unfold removeFromRoomsStep
            rw [if_neg hin]
          refine ⟨e''.2, ?_, ?_, fun hc => absurd hc hin⟩
          · rw [ihother e''.1 hkeys.1, hstepeq]
            exact hlooke
          · have hval : heapGet
                (t.foldl (removeFromRoomsStep u) (removeFromRoomsStep u st e'')).heap
                e''.2.participantsRef = heapGet st.heap e''.2.participantsRef :=
              hstab2 _ hrefe
            rw [hval]
            exact hin
      · obtain ⟨r', h1, h2, h3⟩ := ihP e'' he''
        have href : e''.2.participantsRef < st.nextRef :=
          hrefs e'' (List.mem_cons_of_mem _ he'')
        have hstabe : heapGet (removeFromRoomsStep u st e).heap e''.2.participantsRef
            = heapGet st.heap e''.2.participantsRef := hstab _ href
        refine ⟨r', h1, h2, fun hu p hp hpne hopen => ?_⟩
        refine h3 (by rw [hstabe]; exact hu) p (by rw [hstabe]; exact hp) hpne ?_
        rw [isOpen_of_clients _ st p (by rw [hfc])]
        exact hopen

/-- C6 (confirmed): for a registered identity `u` in room `rid` and in
call `cid`, closing `u`'s connection removes `u` from the room's
participant set, sends `USER_LEFT_ROOM` to the room's remaining open
participants, removes the call from the active set (via an `ended`
transition), and sends a `CALL_ENDED` notification (status `ended`) to the
call's remaining reachable participants. -/
theorem c6_disconnect_cascade (s : ServerState) (u now rid cid : String)
    (hWF : s.WF)
    (hcl : (alookup u s.clients).isSome = true)
    (hroomMem : u ∈ (roomParticipants s rid).getD [])
    (hcallMem : u ∈ (callParticipants s cid).getD [])
    (hstatus : callStatus s cid = some "ringing" ∨ callStatus s cid = some "active") :
    (∃ ps, roomParticipants (handleDisconnect u now s) rid = some ps ∧ u ∉ ps)
    ∧ alookup cid (handleDisconnect u now s).activeCalls = none
    ∧ (∀ p ∈ (callParticipants s cid).getD [], p ≠ u → isOpen s p = true →
        ∃ v : CallView, (p, OutMsg.callEnded v) ∈ (handleDisconnect u now s).log
          ∧ v.status = "ended")
    ∧ (∀ p ∈ (roomParticipants s rid).getD [], p ≠ u → isOpen s p = true →
        (p, OutMsg.userLeftRoom u) ∈ (handleDisconnect u now s).log) := by
  obtain ⟨hheapnd, hheapk, hroomrefs, hcallrefs, hndR, hndC, hndCl, hndU⟩ := hWF
  obtain ⟨cl, hcl'⟩ := Option.isSome_iff_exists.mp hcl
  cases hr : alookup rid s.chatRooms with
  | none =>
    rw [roomParticipants, hr] at hroomMem
    simp at hroomMem
  | some room =>
  cases hc : alookup cid s.activeCalls with
  | none =>
    rw [callParticipants, hc] at hcallMem
    simp at hcallMem
  | some call =>
  have hrp : (roomParticipants s rid).getD [] = heapGet s.heap room.participantsRef := by
    rw [roomParticipants, hr]
    rfl
  have hcp : (callParticipants s cid).getD [] = heapGet s.heap call.participantsRef := by
    rw [callParticipants, hc]
    rfl
  rw [hrp] at hroomMem
  rw [hcp] at hcallMem
  set dP := disconnectPresence u now cl s with hdP
  set sC := dP.activeCalls.foldl (endCallsStep u now) dP with hsC
  set sR := sC.chatRooms.foldl (removeFromRoomsStep u) sC with hsR
  have hdis : handleDisconnect u now s = { sR with clients := mdelete u sR.clients } := by
    unfold handleDisconnect
    rw [hcl']
  -- presence stage: everything except clients/users/log is untouched,
  -- and openness of other clients is unchanged
  have hPopen : ∀ p, p ≠ u → isOpen dP p = isOpen s p := by
    intro p hp
    refine isOpen_of_clients _ _ _ ?_
    exact alookup_mset_ne _ _ (Ne.symm hp)
  -- calls loop
  have hCall := callsFold_spec u now dP.activeCalls dP hndC
    (fun e he => alookup_eq_some_of_mem hndC he) hndC
  obtain ⟨⟨hCc, hCu, hCr, hCh, hCn, tlC, hClog⟩, hCP⟩ := hCall
  have hmemC : ((cid, call) : String × Call) ∈ dP.activeCalls :=
    mem_of_alookup_eq_some (show alookup cid dP.activeCalls = some call from hc)
  obtain ⟨hCnone, hCsends⟩ := hCP (cid, call) hmemC hcallMem
  -- rooms loop
  have hkC : ∀ k ∈ sC.heap.map Prod.fst, k < sC.nextRef := by
    rw [hCh, hCn]
    exact hheapk
  have hndRC : (sC.chatRooms.map Prod.fst).Nodup := by
    rw [hCr]
    exact hndR
  have hrefsC : ∀ e ∈ sC.chatRooms, e.2.participantsRef < sC.nextRef := by
    rw [hCr, hCn]
    exact hroomrefs
  have hRoom := roomsFold_spec u sC.chatRooms sC hkC hndRC hndRC
    (fun e he => alookup_eq_some_of_mem hndRC he) hrefsC
  obtain ⟨⟨hRc, hRu, hRa, ⟨tlR, hRlog⟩, hRn, hRk, hRstab, hRkeys, hRother⟩, hRP⟩ := hRoom
  have hmemR : ((rid, room) : String × Room) ∈ sC.chatRooms :=
    mem_of_alookup_eq_some (show alookup rid sC.chatRooms = some room by
      rw [hCr]
      exact hr)
  obtain ⟨r', hr'1, hr'2, hr'3⟩ := hRP (rid, room) hmemR
  rw [hdis]
  refine ⟨⟨heapGet sR.heap r'.participantsRef, ?_, hr'2⟩, ?_, ?_, ?_⟩
  · show (alookup rid sR.chatRooms).map (fun r => heapGet sR.heap r.participantsRef)
      = some (heapGet sR.heap r'.participantsRef)
    rw [hr'1]
    rfl
  · show alookup cid sR.activeCalls = none
    rw [hRa]
    exact hCnone
  · intro p hp hpne hopen
    rw [hcp] at hp
    have hopen' : isOpen dP p = true := by
      rw [hPopen p hpne]
      exact hopen
    obtain ⟨v, hv, hvs, hvid⟩ := hCsends p hp hopen'
    refine ⟨v, ?_, hvs⟩
    show (p, OutMsg.callEnded v) ∈ sR.log
    rw [hRlog]
    exact List.mem_append_left _ hv
  · intro p hp hpne hopen
    rw [hrp] at hp
    have huC : u ∈ heapGet sC.heap room.participantsRef := by
      rw [hCh]
      exact hroomMem
    have hpC : p ∈ heapGet sC.heap room.participantsRef := by
      rw [hCh]
      exact hp
    have hopenC : isOpen sC p = true := by
      rw [isOpen_of_clients sC dP p (by rw [hCc]), hPopen p hpne]
      exact hopen
    exact hr'3 huC p hpC hpne hopenC

/-- C6 witness: `ca` is registered, in room `r1`, and in the ringing room
call `k1`; closing `ca`'s connection triggers the full cascade. -/
theorem c6_disconnect_cascade_witness :
    sRoomCall.WF
    ∧ (alookup "ca" sRoomCall.clients).isSome = true
    ∧ "ca" ∈ (roomParticipants sRoomCall "r1").getD []
    ∧ "ca" ∈ (callParticipants sRoomCall "k1").getD []
    ∧ callStatus sRoomCall "k1" = some "ringing"
    ∧ ((∃ ps, roomParticipants (handleDisconnect "ca" "t9" sRoomCall) "r1" = some ps
          ∧ "ca" ∉ ps)
      ∧ alookup "k1" (handleDisconnect "ca" "t9" sRoomCall).activeCalls = none
      ∧ (∀ p ∈ (callParticipants sRoomCall "k1").getD [], p ≠ "ca" →
            isOpen sRoomCall p = true →
            ∃ v : CallView,
              (p, OutMsg.callEnded v) ∈ (handleDisconnect "ca" "t9" sRoomCall).log
              ∧ v.status = "ended")
      ∧ (∀ p ∈ (roomParticipants sRoomCall "r1").getD [], p ≠ "ca" →
            isOpen sRoomCall p = true →
            (p, OutMsg.userLeftRoom "ca") ∈ (handleDisconnect "ca" "t9" sRoomCall).log)) :=
  ⟨by decide, by decide, by decide, by decide, by decide,
    c6_disconnect_cascade sRoomCall "ca" "t9" "r1" "k1" (by decide) (by decide)
      (by decide) (by decide) (Or.inl (by decide))⟩

/-- C7: the claim is false on the code. `handleJoinRoom` never checks that
the joining connection is registered, and the disconnect cascade is gated
on `client && client.user`: the unregistered connection `zz` joins room
`r9`, its id enters the participant set while `zz` is not bound in the
client registry, and after `zz`'s socket closes the id is still there. -/
theorem c7_counterexample :
    roomParticipants sGhostGone "r9" = some ["zz"]
    ∧ alookup "zz" sGhostGone.clients = none :=
  ⟨rfl, rfl⟩

/-- C7 (amended): the cleanup half of the invariant holds only for
registered connections: closing a REGISTERED client's connection removes
its id from every room's participant set, while closing a connection with
no `clients` entry leaves every room (and the participants heap) entirely
unchanged — so a room's participant set may retain ids that were never
bound. -/
theorem c7_disconnect_cleanup_registered_only (s : ServerState) (u now : String)
    (hWF : s.WF) :
    ((alookup u s.clients).isSome = true →
      ∀ rid, u ∉ (roomParticipants (handleDisconnect u now s) rid).getD [])
    ∧ (alookup u s.clients = none →
      (handleDisconnect u now s).chatRooms = s.chatRooms
      ∧ (handleDisconnect u now s).heap = s.heap) := by
  obtain ⟨hheapnd, hheapk, hroomrefs, hcallrefs, hndR, hndC, hndCl, hndU⟩ := hWF
  constructor
  · intro hcl rid
    obtain ⟨cl, hcl'⟩ := Option.isSome_iff_exists.mp hcl
    set dP := disconnectPresence u now cl s with hdP
    set sC := dP.activeCalls.foldl (endCallsStep u now) dP with hsC
    set sR := sC.chatRooms.foldl (removeFromRoomsStep u) sC with hsR
    have hdis : handleDisconnect u now s = { sR with clients := mdelete u sR.clients } := by
      unfold handleDisconnect
      rw [hcl']
    have hCall := callsFold_spec u now dP.activeCalls dP hndC
      (fun e he => alookup_eq_some_of_mem hndC he) hndC
    obtain ⟨⟨hCc, hCu, hCr, hCh, hCn, tlC, hClog⟩, hCP⟩ := hCall
    have hkC : ∀ k ∈ sC.heap.map Prod.fst, k < sC.nextRef := by
      rw [hCh, hCn]
      exact hheapk
    have hndRC : (sC.chatRooms.map Prod.fst).Nodup := by
      rw [hCr]
      exact hndR
    have hrefsC : ∀ e ∈ sC.chatRooms, e.2.participantsRef < sC.nextRef := by
      rw [hCr, hCn]
      exact hroomrefs
    have hRoom := roomsFold_spec u sC.chatRooms sC hkC hndRC hndRC
      (fun e he => alookup_eq_some_of_mem hndRC he) hrefsC
    obtain ⟨⟨hRc, hRu, hRa, ⟨tlR, hRlog⟩, hRn, hRk, hRstab, hRkeys, hRother⟩, hRP⟩ := hRoom
    rw [hdis]
    cases hlook : alookup rid sR.chatRooms with
    | none =>
      have : roomParticipants { sR with clients := mdelete u sR.clients } rid = none := by
        rw [roomParticipants]
        rw [show ({ sR with clients := mdelete u sR.clients } : ServerState).chatRooms
          = sR.chatRooms from rfl, hlook]
        rfl
      rw [this]
      simp
    | some r' =>
      have hkey : rid ∈ sC.chatRooms.map Prod.fst := by
        rw [← hRkeys]
        exact mem_map_fst_of_alookup hlook
      obtain ⟨r₀, hmem⟩ := exists_entry_of_mem_map_fst hkey
      obtain ⟨r'', h1, h2, -⟩ := hRP (rid, r₀) hmem
      have hr'' : r'' = r' := Option.some.inj (h1.symm.trans hlook)
      have : roomParticipants { sR with clients := mdelete u sR.clients } rid
          = some (heapGet sR.heap r'.participantsRef) := by
        rw [roomParticipants]
        rw [show ({ sR with clients := mdelete u sR.clients } : ServerState).chatRooms
          = sR.chatRooms from rfl, hlook]
        rfl
      rw [this]
      rw [hr''] at h2
      simpa using h2
  · intro hnone
    have hdis : handleDisconnect u now s = { s with clients := mdelete u s.clients } := by
      unfold handleDisconnect
      rw [hnone]
    rw [hdis]
    exact ⟨rfl, rfl⟩

/-- C7 witness: the amended theorem at the concrete `sRooms` state for the
registered client `ca` (and for the never-registered id `zz`). -/
theorem c7_disconnect_cleanup_registered_only_witness :
    sRooms.WF
    ∧ (((alookup "ca" sRooms.clients).isSome = true →
          ∀ rid, "ca" ∉ (roomParticipants (handleDisconnect "ca" "t9" sRooms) rid).getD [])
      ∧ (alookup "ca" sRooms.clients = none →
          (handleDisconnect "ca" "t9" sRooms).chatRooms = sRooms.chatRooms
          ∧ (handleDisconnect "ca" "t9" sRooms).heap = sRooms.heap)) :=
  ⟨by decide, c7_disconnect_cleanup_registered_only sRooms "ca" "t9" (by decide)⟩

end WebRTC
